import Mathlib

/-!
Verification development for the dual-representation quantum-state engine
(`State` in `mrmustard/lab/abstract/state.py`, `Transformation` in
`mrmustard/abstract/transformation.py`).

Embedding conventions:
* Backend scalars are embedded as exact rationals `ℚ` (the backends operate
  on real float tensors; amplitudes are embedded at a real instantiation,
  so complex conjugation is the identity and `abs` is the rational absolute
  value).
* A Fock tensor is a shape together with a total data function on
  multi-indices; all reductions enumerate the finitely many valid indices.
* Phase-space vectors and covariance matrices use the per-mode interleaved
  quadrature ordering: mode `i` owns rows/columns `2*i` and `2*i+1`.
* Engine routines from `mrmustard.physics.gaussian` / `mrmustard.physics.fock`
  are not part of the sources; those with exact rational content are modelled
  from the spec below, while the transcendental-valued ones (Gaussian purity,
  dyne measurement, Gaussian-to-Fock conversion, photon-number moments,
  dominant-eigenvector extraction) are bundled as parameters in `Engines`.
* Python attribute mutation that only populates idempotent derived caches is
  embedded value-level (the getter returns the value the attribute would
  hold); the one cache a claim is about (`_fock_probabilities`) is threaded
  explicitly through an updated `State`.
-/

/-- `numpy` relative tolerance (default `rtol=1e-5`). -/
def RTOL : ℚ := 1 / 100000

/-- `numpy` absolute tolerance as passed throughout `state.py` (`atol=1e-6`). -/
def ATOL : ℚ := 1 / 1000000

/-- Rational absolute value, written out so that it evaluates by kernel
reduction. -/
def qabs (q : ℚ) : ℚ := if q < 0 then -q else q

/-- `np.isclose(a, b, atol=1e-6)` on scalars: `|a - b| <= atol + rtol*|b|`. -/
def isclose (a b : ℚ) : Bool := qabs (a - b) ≤ ATOL + RTOL * qabs b

/-- Phase-space vector (means). -/
abbrev QVec := List ℚ

/-- Phase-space matrix (covariance), row-major list of rows. -/
abbrev QMat := List (List ℚ)

/-- `np.allclose` on vectors (shapes equal in every reachable call site). -/
def allcloseV (a b : QVec) : Bool :=
  a.length == b.length && (List.zip a b).all (fun p => isclose p.1 p.2)

/-- `np.allclose` on matrices. -/
def allcloseM (a b : QMat) : Bool :=
  a.length == b.length && (List.zip a b).all (fun p => allcloseV p.1 p.2)

/-- Matrix entry access with zero default. -/
def mEntry (m : QMat) (i j : ℕ) : ℚ := (m.getD i []).getD j 0

/-- Vector entry access with zero default. -/
def vEntry (v : QVec) (i : ℕ) : ℚ := v.getD i 0

/-- Number of columns of a row-major matrix (`shape[-1]`). -/
def mCols (m : QMat) : ℕ := (m.headD []).length

/-- `n × n` identity matrix. -/
def idMat (n : ℕ) : QMat :=
  (List.range n).map (fun i => (List.range n).map (fun j => if i = j then (1 : ℚ) else 0))

/-- `n × n` zero matrix. -/
def zeroMat (n : ℕ) : QMat := (List.range n).map (fun _ => (List.range n).map (fun _ => (0 : ℚ)))

/-- Matrix product sized by the left factor's rows and right factor's columns. -/
def mMul (a b : QMat) : QMat :=
  (List.range a.length).map (fun i =>
    (List.range (mCols b)).map (fun j =>
      ((List.range (mCols a)).map (fun k => mEntry a i k * mEntry b k j)).sum))

/-- Matrix transpose. -/
def mTrans (a : QMat) : QMat :=
  (List.range (mCols a)).map (fun j => (List.range a.length).map (fun i => mEntry a i j))

/-- Entrywise matrix sum sized by the left operand. -/
def mAdd (a b : QMat) : QMat :=
  (List.range a.length).map (fun i =>
    (List.range (mCols a)).map (fun j => mEntry a i j + mEntry b i j))

/-- Matrix-vector product. -/
def mMulV (a : QMat) (v : QVec) : QVec :=
  (List.range a.length).map (fun i =>
    ((List.range (mCols a)).map (fun k => mEntry a i k * vEntry v k)).sum)

/-- Entrywise vector sum sized by the left operand. -/
def vAdd (a b : QVec) : QVec :=
  (List.range a.length).map (fun i => vEntry a i + vEntry b i)

/-- A Fock tensor: per-axis dimensions plus a total amplitude function. -/
structure Tensor where
  shape : List ℕ
  data : List ℕ → ℚ

/-- All multi-indices of a given shape, in lexicographic order. -/
def indicesOf : List ℕ → List (List ℕ)
  | [] => [[]]
  | n :: rest => (List.range n).flatMap (fun i => (indicesOf rest).map (fun t => i :: t))

/-- Sum of a function over all multi-indices of a shape. -/
def sumIdx (shape : List ℕ) (f : List ℕ → ℚ) : ℚ := ((indicesOf shape).map f).sum

/-- `np.allclose` on Fock tensors (fails on shape mismatch). -/
def allcloseT (a b : Tensor) : Bool :=
  a.shape == b.shape && (indicesOf b.shape).all (fun i => isclose (a.data i) (b.data i))

/-- Rank-1 tensor from a list of amplitudes. -/
def tensor1 (l : List ℚ) : Tensor := ⟨[l.length], fun i => l.getD (i.headD 0) 0⟩

/-- Outer (tensor) product, `tensordot(a, b, [[], []])`. -/
def outerT (a b : Tensor) : Tensor :=
  ⟨a.shape ++ b.shape, fun i => a.data (i.take a.shape.length) * b.data (i.drop a.shape.length)⟩

/-- Axis permutation, `transpose(t, perm)`: output axis `k` is input axis `perm[k]`. -/
def transposeT (t : Tensor) (perm : List ℕ) : Tensor :=
  ⟨perm.map (fun p => t.shape.getD p 0),
   fun idx => t.data ((List.range t.shape.length).map (fun j => idx.getD (perm.indexOf j) 0))⟩

/-- Zero padding at the end of each axis by the given amounts. -/
def padT (t : Tensor) (amounts : List ℕ) : Tensor :=
  ⟨(List.zip t.shape amounts).map (fun p => p.1 + p.2),
   fun idx => if (List.zip idx t.shape).all (fun p => p.1 < p.2) then t.data idx else 0⟩

/-- Slicing each axis to the requested length (`numpy` clamps to the axis size). -/
def sliceT (t : Tensor) (cut : List ℕ) : Tensor :=
  ⟨(List.zip cut t.shape).map (fun p => min p.1 p.2), t.data⟩

/-- Elementwise scalar multiple of a tensor. -/
def scaleT (t : Tensor) (c : ℚ) : Tensor := ⟨t.shape, fun i => c * t.data i⟩

/-- Elementwise scalar division of a tensor. -/
def divT (t : Tensor) (c : ℚ) : Tensor := ⟨t.shape, fun i => t.data i / c⟩

/-- Empty placeholder tensor (used only as a `getD` default on paths that the
Python code cannot reach for well-formed states, where it would raise). -/
def zeroT : Tensor := ⟨[], fun _ => 0⟩

/-- Number of earlier axis positions not contracted, used to line up the
remaining-index pointer when splicing a full multi-index back together. -/
def countNotIn (pos : List ℕ) (p : ℕ) : ℕ :=
  ((List.range p).filter (fun q => !(decide (q ∈ pos)))).length

/-- Rebuild a full multi-index of length `rank` from contracted components
`contr` (at axis positions `pos`) and remaining components `rest`. -/
def spliceIdx (rank : ℕ) (pos : List ℕ) (contr rest : List ℕ) : List ℕ :=
  (List.range rank).map (fun p =>
    if p ∈ pos then contr.getD (pos.indexOf p) 0 else rest.getD (countNotIn pos p) 0)

/-- The shape with the axes at positions `pos` removed. -/
def removeIdxs (shape : List ℕ) (pos : List ℕ) : List ℕ :=
  (((List.range shape.length).filter (fun p => !(decide (p ∈ pos)))).map
    (fun p => shape.getD p 0))

/-- Modelled from the spec (Fock Engine, missing from the sources):
`ket_to_dm` is the outer product of the ket with its conjugate (identity
conjugation at the real scalar instantiation). -/
def ket_to_dm (k : Tensor) : Tensor :=
  ⟨k.shape ++ k.shape,
   fun i => k.data (i.take k.shape.length) * k.data (i.drop k.shape.length)⟩

/-- Modelled from the spec (Fock Engine, missing from the sources):
`ket_to_probs` is the elementwise squared modulus. -/
def ket_to_probs (k : Tensor) : Tensor := ⟨k.shape, fun i => (k.data i) ^ 2⟩

/-- Modelled from the spec (Fock Engine, missing from the sources):
`dm_to_probs` is the multi-index diagonal extraction. -/
def dm_to_probs (d : Tensor) : Tensor :=
  ⟨d.shape.take (d.shape.length / 2), fun i => d.data (i ++ i)⟩

/-- Modelled from the spec (Fock Engine, missing from the sources):
the norm of a Fock tensor, carrying the (unnormalized) probability weight:
the trace for a density matrix, the total probability mass for a ket. -/
def fockNorm (t : Tensor) (is_dm : Bool) : ℚ :=
  if is_dm then sumIdx (t.shape.take (t.shape.length / 2)) (fun i => t.data (i ++ i))
  else sumIdx t.shape (fun i => (t.data i) ^ 2)

/-- Modelled from the spec (Fock Engine, missing from the sources):
purity of a density matrix, `trace(rho^2) / trace(rho)^2`. -/
def fockPurity (d : Tensor) : ℚ :=
  (sumIdx (d.shape.take (d.shape.length / 2)) (fun i =>
    sumIdx (d.shape.take (d.shape.length / 2)) (fun j => d.data (i ++ j) * d.data (j ++ i))))
  / (sumIdx (d.shape.take (d.shape.length / 2)) (fun i => d.data (i ++ i))) ^ 2

/-- Full `2n`-component index for the Fock partial trace: kept mode pairs read
the output index, traced pairs read the shared summation index on both sides. -/
def traceIdx (n : ℕ) (keep traced : List ℕ) (ketOut braOut j : List ℕ) : List ℕ :=
  ((List.range n).map (fun p =>
    if p ∈ keep then ketOut.getD (keep.indexOf p) 0 else j.getD (traced.indexOf p) 0))
  ++ ((List.range n).map (fun p =>
    if p ∈ keep then braOut.getD (keep.indexOf p) 0 else j.getD (traced.indexOf p) 0))

/-- Modelled from the spec (Fock Engine, missing from the sources):
density-matrix partial trace, contracting the matching ket/conjugate index
pair of every mode not in `keep`. -/
def fockTrace (d : Tensor) (keep : List ℕ) : Tensor :=
  ⟨(keep.map (fun p => d.shape.getD p 0))
     ++ (keep.map (fun p => d.shape.getD (p + d.shape.length / 2) 0)),
   fun idx =>
    sumIdx (((List.range (d.shape.length / 2)).filter (fun p => !(decide (p ∈ keep)))).map
        (fun p => d.shape.getD p 0))
      (fun j => d.data (traceIdx (d.shape.length / 2) keep
        ((List.range (d.shape.length / 2)).filter (fun p => !(decide (p ∈ keep))))
        (idx.take keep.length) (idx.drop keep.length) j))⟩

/-- Ket-ket tensor contraction of `tB` against `tA` at axis positions `pos`. -/
def contractPure (tA tB : Tensor) (pos : List ℕ) : Tensor :=
  ⟨removeIdxs tA.shape pos,
   fun rest =>
    sumIdx (pos.map (fun p => tA.shape.getD p 0)) (fun j =>
      tA.data (spliceIdx tA.shape.length pos j rest) * tB.data j)⟩

/-- Density-matrix contraction of `dB` against `dA`: both the ket-side
positions `pos` and the matching conjugate-side positions are contracted. -/
def contractDm (dA dB : Tensor) (pos : List ℕ) : Tensor :=
  ⟨removeIdxs dA.shape (pos ++ pos.map (fun p => p + dA.shape.length / 2)),
   fun rest =>
    sumIdx ((pos ++ pos.map (fun p => p + dA.shape.length / 2)).map
        (fun p => dA.shape.getD p 0))
      (fun j =>
        dA.data (spliceIdx dA.shape.length
          (pos ++ pos.map (fun p => p + dA.shape.length / 2)) j rest) * dB.data j)⟩

/-- Configured confidence multiplier for automatic cutoff selection. -/
def AUTOCUTOFF_STDEVS : ℚ := 5

/-- Configured maximum automatic cutoff. -/
def AUTOCUTOFF_MAX : ℕ := 100

/-- Modelled from the spec (Fock Engine, missing from the sources):
per-mode automatic cutoff `ceil(mean + k*stdev)`, at least 1, clipped to the
configured maximum. -/
def autocutoffs (stdev means : QVec) : List ℕ :=
  (List.zip means stdev).map (fun p =>
    min AUTOCUTOFF_MAX (max 1 (Int.toNat ⌈p.1 + AUTOCUTOFF_STDEVS * p.2⌉)))

/-- Process-wide phase-space scale constant (`settings.HBAR`). -/
def HBAR : ℚ := 2

/-- Quadrature row/column indices of the given mode indices (mode `i` owns
rows `2i` and `2i+1`). -/
def quadIdx (ms : List ℤ) : List ℕ := ms.flatMap (fun m => [2 * m.toNat, 2 * m.toNat + 1])

/-- Submatrix at the given row and column index lists. -/
def subMat (m : QMat) (rows cols : List ℕ) : QMat :=
  rows.map (fun i => cols.map (fun j => mEntry m i j))

/-- Subvector at the given index list. -/
def subVec (v : QVec) (idx : List ℕ) : QVec := idx.map (fun i => vEntry v i)

/-- Modelled from the spec (Gaussian Engine, missing from the sources):
block-diagonal direct sum of two independent subsystems' covariances. -/
def joinCovs (a b : QMat) : QMat :=
  (List.range (a.length + b.length)).map (fun i =>
    (List.range (a.length + b.length)).map (fun j =>
      if i < a.length then (if j < a.length then mEntry a i j else 0)
      else (if j < a.length then 0 else mEntry b (i - a.length) (j - a.length))))

/-- Modelled from the spec (Gaussian Engine, missing from the sources):
concatenation of the independent subsystems' means. -/
def joinMeans (a b : QVec) : QVec := a ++ b

/-- Modelled from the spec (Gaussian Engine, missing from the sources):
covariance partition into the kept block, the complementary block and the
cross block, for the kept mode-index set. -/
def partitionCov (cov : QMat) (item : List ℤ) : QMat × QMat × QMat :=
  (subMat cov (quadIdx item) (quadIdx item),
   subMat cov (quadIdx ((List.range (mCols cov / 2)).filter
      (fun i => !(decide ((i : ℤ) ∈ item))) |>.map (fun i => (i : ℤ))))
     (quadIdx ((List.range (mCols cov / 2)).filter
      (fun i => !(decide ((i : ℤ) ∈ item))) |>.map (fun i => (i : ℤ)))),
   subMat cov (quadIdx item)
     (quadIdx ((List.range (mCols cov / 2)).filter
      (fun i => !(decide ((i : ℤ) ∈ item))) |>.map (fun i => (i : ℤ)))))

/-- Modelled from the spec (Gaussian Engine, missing from the sources):
means partition into the kept and complementary components. -/
def partitionMeans (v : QVec) (item : List ℤ) : QVec × QVec :=
  (subVec v (quadIdx item),
   subVec v (quadIdx ((List.range (v.length / 2)).filter
      (fun i => !(decide ((i : ℤ) ∈ item))) |>.map (fun i => (i : ℤ)))))

/-- Symplectic embedding of the linear part: identity outside the acting
quadratures (`X = None` denotes the identity map). -/
def embedX (X : Option QMat) (acting : List ℕ) (dim : ℕ) : QMat :=
  match X with
  | none => idMat dim
  | some x =>
    (List.range dim).map (fun i => (List.range dim).map (fun j =>
      if i ∈ acting.flatMap (fun m => [2 * m, 2 * m + 1]) ∧
         j ∈ acting.flatMap (fun m => [2 * m, 2 * m + 1]) then
        mEntry x ((acting.flatMap (fun m => [2 * m, 2 * m + 1])).indexOf i)
          ((acting.flatMap (fun m => [2 * m, 2 * m + 1])).indexOf j)
      else if i = j then 1 else 0))

/-- Symplectic embedding of the additive noise: zero outside the acting
quadratures (`Y = None` denotes no added noise). -/
def embedY (Y : Option QMat) (acting : List ℕ) (dim : ℕ) : QMat :=
  match Y with
  | none => zeroMat dim
  | some y =>
    (List.range dim).map (fun i => (List.range dim).map (fun j =>
      if i ∈ acting.flatMap (fun m => [2 * m, 2 * m + 1]) ∧
         j ∈ acting.flatMap (fun m => [2 * m, 2 * m + 1]) then
        mEntry y ((acting.flatMap (fun m => [2 * m, 2 * m + 1])).indexOf i)
          ((acting.flatMap (fun m => [2 * m, 2 * m + 1])).indexOf j)
      else 0))

/-- Symplectic embedding of the displacement: zero outside the acting
quadratures (`d = None` denotes no displacement). -/
def embedD (d : Option QVec) (acting : List ℕ) (dim : ℕ) : QVec :=
  match d with
  | none => (List.range dim).map (fun _ => (0 : ℚ))
  | some dv =>
    (List.range dim).map (fun i =>
      if i ∈ acting.flatMap (fun m => [2 * m, 2 * m + 1]) then
        vEntry dv ((acting.flatMap (fun m => [2 * m, 2 * m + 1])).indexOf i)
      else 0)

/-- Modelled from the spec (Gaussian Engine, missing from the sources):
channel application `CPTP`: embed `X, Y, d` into the full phase space acting
as identity/zero on untouched mode pairs, then `cov' = X cov X^T + Y`,
`means' = X means + d`; fails if the acting-index count times two does not
match `X`'s dimension. -/
def CPTP (cov : QMat) (means : QVec) (X Y : Option QMat) (d : Option QVec)
    (acting : List ℕ) : Except String (QMat × QVec) :=
  match X with
  | some x =>
    if mCols x = 2 * acting.length then
      .ok (mAdd (mMul (mMul (embedX X acting (mCols cov)) cov)
                  (mTrans (embedX X acting (mCols cov)))) (embedY Y acting (mCols cov)),
           vAdd (mMulV (embedX X acting (mCols cov)) means) (embedD d acting (mCols cov)))
    else .error "CPTP: acting indices do not match the dimension of X"
  | none =>
    .ok (mAdd (mMul (mMul (embedX X acting (mCols cov)) cov)
                (mTrans (embedX X acting (mCols cov)))) (embedY Y acting (mCols cov)),
         vAdd (mMulV (embedX X acting (mCols cov)) means) (embedD d acting (mCols cov)))

/-- External engine routines whose values involve transcendental functions
(Gaussian purity `1/sqrt(det(2 cov/hbar))`, the dyne-measurement probability
and Schur-complement conditioning, the renormalized-Hermite Gaussian-to-Fock
conversion, photon-number moments, dominant-eigenvector extraction).  They
are not part of the sources and have no exact rational closed form, so the
development is parametric in them; every theorem below holds for every
engine instance.  `normalize_ket` is the renormalization of a ket by the
square root of its probability mass (transcendental-valued); `EnginesOK`
pins down the unit-mass law the spec assigns to it. -/
structure Engines where
  purity_g : QMat → ℚ → ℚ
  general_dyne : QMat → QVec → QMat → QVec → List ℕ → ℚ → ℚ × QMat × QVec
  fock_representation : QMat → QVec → List ℕ → Bool → Tensor
  number_means_g : QMat → QVec → ℚ → QVec
  number_stdev_g : QMat → QVec → ℚ → QVec
  dm_to_ket : Tensor → Tensor
  normalize_ket : Tensor → Tensor

/-- Modelled from the spec (Fock Engine, missing from the sources):
`contract_states` tensor-contracts `tB` against `tA` at the given mode
positions, handling the four purity combinations by lifting kets to density
matrices when either side is mixed, and returning the unnormalized tensor
unless `normalize` is requested.  Renormalization divides a density tensor
by its trace (exact on the rational instantiation) and a ket by the square
root of its probability mass; the square root is transcendental-valued, so
the ket case is the engine's `normalize_ket` routine, which `EnginesOK`
constrains to return a unit-mass tensor of the same shape. -/
def contract_states (E : Engines) (tA tB : Tensor) (aMixed bMixed : Bool)
    (modes : List ℕ) (normalize : Bool) : Tensor :=
  if !aMixed && !bMixed then
    if normalize then E.normalize_ket (contractPure tA tB modes)
    else contractPure tA tB modes
  else
    if normalize then
      divT (contractDm (if aMixed then tA else ket_to_dm tA)
              (if bMixed then tB else ket_to_dm tB) modes)
        (fockNorm (contractDm (if aMixed then tA else ket_to_dm tA)
              (if bMixed then tB else ket_to_dm tB) modes) true)
    else
      contractDm (if aMixed then tA else ket_to_dm tA)
        (if bMixed then tB else ket_to_dm tB) modes

/-- The `State` entity of `state.py`, with the constructor-assigned fields.
`_normalize` embeds the optional Python attribute read via
`getattr(self, "_normalize", False)`; the constructor leaves it `false`. -/
structure State where
  _purity : Option ℚ
  _fock_probabilities : Option Tensor
  _cutoffs : Option (List ℕ)
  _cov : Option QMat
  _means : Option QVec
  _eigenvalues : Option QVec
  _symplectic : Option QMat
  _ket : Option Tensor
  _dm : Option Tensor
  _norm : ℚ
  is_gaussian : Bool
  num_modes : ℕ
  _modes : Option (List ℤ)
  _normalize : Bool

/-- The representation-family dispatch of `State.__init__` (an `elif` chain,
so the first complete family in order cov+means, eigenvalues+symplectic,
ket, dm wins): the gaussian flag, the derived mode count, and the cached
purity; `none` when no complete family is supplied. -/
def reprDispatch (cov : Option QMat) (means : Option QVec) (eigenvalues : Option QVec)
    (symplectic : Option QMat) (ket dm : Option Tensor) : Option (Bool × ℕ × Option ℚ) :=
  match cov, means with
  | some c, some _ => some (true, mCols c / 2, (none : Option ℚ))
  | _, _ =>
    match eigenvalues, symplectic with
    | some _, some sp => some (true, mCols sp / 2, none)
    | _, _ =>
      match ket, dm with
      | some k, _ => some (false, k.shape.length, some 1)
      | none, some d => some (false, d.shape.length / 2, none)
      | none, none => none

/-- `State.__init__`: exactly the representation dispatch and checks of the
source, raising on no complete representation and on a mode-count mismatch. -/
def State.init (cov : Option QMat) (means : Option QVec) (eigenvalues : Option QVec)
    (symplectic : Option QMat) (ket dm : Option Tensor) (modes : Option (List ℤ))
    (cutoffs : Option (List ℕ)) (norm : ℚ) : Except String State :=
  match reprDispatch cov means eigenvalues symplectic ket dm with
  | none => .error "State must be initialized with a complete representation"
  | some (g, n, p) =>
    match modes with
    | some ms =>
      if ms.length = n then
        .ok ⟨p, none, cutoffs, cov, means, eigenvalues, symplectic, ket, dm, norm, g, n, modes, false⟩
      else .error "number of modes must match the representation dimension"
    | none =>
      .ok ⟨p, none, cutoffs, cov, means, eigenvalues, symplectic, ket, dm, norm, g, n, none, false⟩

/-- The `modes` property: stored labels, or the default range. -/
def State.modesL (s : State) : List ℤ :=
  match s._modes with
  | none => (List.range s.num_modes).map Int.ofNat
  | some ms => ms

/-- `State.indices`: positions of the given mode labels in this state's
mode-label list. -/
def State.indicesI (s : State) (ms : List ℤ) : List ℕ :=
  ms.map (fun m => (s.modesL).indexOf m)

/-- The stored covariance (present on every well-formed cov/means Gaussian
state; the Python property returns `None` otherwise and downstream code
raises). -/
def State.covG (s : State) : QMat := s._cov.getD []

/-- The stored means vector. -/
def State.meansG (s : State) : QVec := s._means.getD []

/-- The `purity` property: the cached value if present, else the Gaussian
purity of the covariance, else the Fock purity of the stored tensor (a
non-Gaussian state without a cached purity stores a density matrix). -/
def purityOf (E : Engines) (s : State) : ℚ :=
  match s._purity with
  | some p => p
  | none =>
    if s.is_gaussian then E.purity_g s.covG HBAR
    else fockPurity (match s._ket with | some k => k | none => s._dm.getD zeroT)

/-- `is_pure`: `np.isclose(purity, 1.0, atol=1e-6)`. -/
def isPure (E : Engines) (s : State) : Bool := isclose (purityOf E s) 1

/-- `is_mixed`: `not is_pure`. -/
def isMixed (E : Engines) (s : State) : Bool := !(isPure E s)

/-- The stored Fock tensor, or nothing. -/
def fockRaw (s : State) : Tensor :=
  match s._ket with
  | some k => k
  | none => s._dm.getD zeroT

/-- The `cutoffs` property: the forced override, else automatic cutoffs from
the photon-number moments when no Fock data exists, else the Fock tensor's
per-mode dimensions. -/
def cutoffsOf (E : Engines) (s : State) : List ℕ :=
  match s._cutoffs with
  | some c => c
  | none =>
    if s._ket.isNone && s._dm.isNone then
      autocutoffs (E.number_stdev_g s.covG s.meansG HBAR) (E.number_means_g s.covG s.meansG HBAR)
    else (fockRaw s).shape.take s.num_modes

/-- The `shape` property: the cutoffs, doubled for a mixed state. -/
def shapeOf (E : Engines) (s : State) : List ℕ :=
  if isPure E s then cutoffsOf E s else cutoffsOf E s ++ cutoffsOf E s

/-- The `fock` property: the stored tensor, else the Gaussian-to-Fock
conversion at the state's shape (the Python code then caches it; the cached
attribute holds exactly this value). -/
def fockOf (E : Engines) (s : State) : Tensor :=
  match s._ket with
  | some k => k
  | none =>
    match s._dm with
    | some d => d
    | none => E.fock_representation s.covG s.meansG (shapeOf E s) (isMixed E s)

/-- Per-mode cutoff resolution of `ket`/`dm`: a `None` entry falls back to
the state's own cutoff for that mode. -/
def mergeCutoffs (E : Engines) (s : State) (c : Option (List (Option ℕ))) : List ℕ :=
  match c with
  | none => cutoffsOf E s
  | some l => l.enum.map (fun p => (p.2).getD ((cutoffsOf E s).getD p.1 0))

/-- `State.ket(cutoffs)`: `None` for mixed states; Gaussian states convert at
the requested cutoffs; Fock states pad (zero) and slice to the requested
cutoffs, or extract the ket from a pure density matrix. -/
def ketVal (E : Engines) (s : State) (c : Option (List (Option ℕ))) : Option Tensor :=
  if isMixed E s then none
  else
    if s.is_gaussian then
      some (E.fock_representation s.covG s.meansG (mergeCutoffs E s c) false)
    else
      match s._ket with
      | none => if isPure E s then some (E.dm_to_ket (s._dm.getD zeroT)) else none
      | some k =>
        if mergeCutoffs E s c ≠ k.shape.take s.num_modes then
          some (sliceT (padT k ((List.zip (mergeCutoffs E s c) (k.shape.take s.num_modes)).map
            (fun p => p.1 - p.2))) (mergeCutoffs E s c))
        else some k

/-- `State.dm(cutoffs)`: the outer square of the ket for pure states, the
Gaussian-to-Fock conversion at doubled cutoffs for mixed Gaussian states,
and pad/slice on each axis pair for mixed Fock states. -/
def dmVal (E : Engines) (s : State) (c : Option (List (Option ℕ))) : Option Tensor :=
  if isPure E s then
    match ketVal E s (some ((mergeCutoffs E s c).map some)) with
    | some k => some (ket_to_dm k)
    | none => s._dm
  else
    if s.is_gaussian then
      some (E.fock_representation s.covG s.meansG (mergeCutoffs E s c ++ mergeCutoffs E s c) true)
    else
      if mergeCutoffs E s c ≠ (s._dm.getD zeroT).shape.take s.num_modes then
        some (sliceT (padT (s._dm.getD zeroT)
          (((List.zip (mergeCutoffs E s c) ((s._dm.getD zeroT).shape.take s.num_modes)).map
              (fun p => p.1 - p.2))
            ++ ((List.zip (mergeCutoffs E s c) ((s._dm.getD zeroT).shape.take s.num_modes)).map
              (fun p => p.1 - p.2))))
          (mergeCutoffs E s c ++ mergeCutoffs E s c))
      else s._dm

/-- `State.fock_probabilities(cutoffs)`: computes the probabilities on the
first call and caches them; a cached value is returned as is.  The updated
state is returned alongside the value. -/
def fock_probabilities (E : Engines) (s : State) (cutoffs : List ℕ) : Tensor × State :=
  match s._fock_probabilities with
  | some p => (p, s)
  | none =>
    if isMixed E s then
      let r := dm_to_probs ((dmVal E s (some (cutoffs.map some))).getD zeroT)
      (r, { s with _fock_probabilities := some r })
    else
      let r := ket_to_probs ((ketVal E s (some (cutoffs.map some))).getD zeroT)
      (r, { s with _fock_probabilities := some r })

/-- `State.primal(other)` for a `State` operand (`other << self`): Gaussian
pairs delegate to the dyne measurement, degenerating to the bare probability
when no modes of `other` remain; otherwise the states are contracted in Fock
representation after aligning cutoffs on the overlapping modes (the base
class has no `_preferred_projection`, so the `AttributeError` fallback always
runs), returning a reduced `State`, or the scalar `abs(out)^2` (both pure)
respectively `abs(out)` when no modes remain.  The `Transformation` operand
branch dispatches to the transformation's dual and is embedded separately. -/
def primal (E : Engines) (self other : State) : Except String (ℚ ⊕ State) :=
  if self.is_gaussian && other.is_gaussian then
    let r := E.general_dyne other.covG other.meansG self.covG self.meansG
      (other.indicesI self.modesL) HBAR
    if 0 < ((other.modesL).filter (fun m => !(decide (m ∈ self.modesL)))).length then
      (State.init (some r.2.1) (some r.2.2) none none none none
        (some ((other.modesL).filter (fun m => !(decide (m ∈ self.modesL))))) none
        (if self._normalize then 1 else r.1)).map Sum.inr
    else .ok (Sum.inl r.1)
  else
    let other_cutoffs : List (Option ℕ) := (other.modesL).map (fun m =>
      if m ∈ self.modesL then some ((cutoffsOf E other).getD ((other.modesL).indexOf m) 0)
      else none)
    let self_cutoffs : List (Option ℕ) := (self.modesL).map (fun m =>
      some ((cutoffsOf E other).getD ((other.modesL).indexOf m) 0))
    match (if isPure E other then ketVal E other (some other_cutoffs)
           else dmVal E other (some other_cutoffs)),
          (if isPure E self then ketVal E self (some self_cutoffs)
           else dmVal E self (some self_cutoffs)) with
    | some ta, some tb =>
      let out := contract_states E ta tb (isMixed E other) (isMixed E self)
        (other.indicesI self.modesL) self._normalize
      if 0 < ((other.modesL).filter (fun m => !(decide (m ∈ self.modesL)))).length then
        if isMixed E other || isMixed E self then
          (State.init none none none none none (some out)
            (some ((other.modesL).filter (fun m => !(decide (m ∈ self.modesL))))) none 1).map
            Sum.inr
        else
          (State.init none none none none (some out) none
            (some ((other.modesL).filter (fun m => !(decide (m ∈ self.modesL))))) none 1).map
            Sum.inr
      else
        .ok (Sum.inl (if isPure E other && isPure E self then qabs (out.data []) ^ 2
          else qabs (out.data [])))
    | _, _ => .error "no Fock data available for contraction"

/-- The largest stored mode label, `max(self.modes)` (the Python call raises
on an empty list; states always carry at least one mode). -/
def maxModes (s : State) : ℤ := (s.modesL).foldl max ((s.modesL).headD 0)

/-- `State.__and__`: Gaussian pairs join covariances (direct sum) and means
(concatenation) and offset the right labels by the left mode count; otherwise
both operands are converted to Fock tensors of matching purity, tensored, the
mixed case interleaved so primary indices precede conjugate indices, and the
right labels are offset past the left maximum. -/
def andS (E : Engines) (self other : State) : Except String State :=
  if !self.is_gaussian || !other.is_gaussian then
    if isMixed E self || isMixed E other then
      match dmVal E self none, dmVal E other none with
      | some sf, some ot =>
        let t := outerT sf ot
        let selfIdx := List.range sf.shape.length
        let otherIdx := (List.range ot.shape.length).map (fun i => i + sf.shape.length)
        State.init none none none none none
          (some (transposeT t (selfIdx.take (selfIdx.length / 2)
            ++ otherIdx.take (otherIdx.length / 2)
            ++ selfIdx.drop (selfIdx.length / 2)
            ++ otherIdx.drop (otherIdx.length / 2))))
          (some (self.modesL ++ (other.modesL).map (fun m => m + maxModes self + 1))) none 1
      | _, _ => .error "no Fock data available for composition"
    else
      match ketVal E self none, ketVal E other none with
      | some sk, some okt =>
        State.init none none none none (some (outerT sk okt)) none
          (some (self.modesL ++ (other.modesL).map (fun m => m + maxModes self + 1))) none 1
      | _, _ => .error "no Fock data available for composition"
  else
    State.init (some (joinCovs self.covG other.covG))
      (some (joinMeans self.meansG other.meansG)) none none none none
      (some (self.modesL ++ (other.modesL).map (fun m => m + (self.num_modes : ℤ)))) none 1

/-- `State.get_modes(item)` (list form): Gaussian states keep the partitioned
covariance/means blocks at the given positions; Fock states trace out the
complement of the given positions.  Note the source passes the labels
directly as block positions, without converting through `indices`. -/
def get_modesS (E : Engines) (s : State) (item : List ℤ) : Except String State :=
  if s.is_gaussian then
    State.init (some (partitionCov s.covG item).1) (some (partitionMeans s.meansG item).1)
      none none none none (some item) none 1
  else
    match dmVal E s (some ((cutoffsOf E s).map some)) with
    | some d =>
      State.init none none none none none
        (some (fockTrace d ((List.range s.num_modes).filter (fun m => decide ((m : ℤ) ∈ item)))))
        (some item) none 1
    | none => .error "no Fock data available"

/-- `State.__eq__`: mode counts, then purity within tolerance, then Gaussian
means/covariance within tolerance, else Fock kets at the right operand's
cutoffs (falling back to density matrices when a ket is unavailable).  The
Python `TypeError` fallback fires exactly when a compared ket is `None`. -/
def eqS (E : Engines) (a b : State) : Bool :=
  if a.num_modes ≠ b.num_modes then false
  else if !(isclose (purityOf E a) (purityOf E b)) then false
  else if a.is_gaussian && b.is_gaussian then
    if !(allcloseV a.meansG b.meansG) then false
    else if !(allcloseM a.covG b.covG) then false
    else true
  else
    match ketVal E a (some ((cutoffsOf E b).map some)),
          ketVal E b (some ((cutoffsOf E b).map some)) with
    | some ka, some kb => allcloseT ka kb
    | _, _ =>
      allcloseT ((dmVal E a (some ((cutoffsOf E b).map some))).getD zeroT)
        ((dmVal E b (some ((cutoffsOf E b).map some))).getD zeroT)

/-- `State.__rmul__(other)` (`other * self`): a Gaussian state warns and
returns `self.fock` — the freshly converted, UNSCALED Fock tensor, not a
`State`; a Fock state scales its stored dm or ket.  The first component
collects the emitted warnings. -/
def rmulS (E : Engines) (s : State) (other : ℚ) :
    List String × Except String (Tensor ⊕ State) :=
  if s.is_gaussian then
    (["scalar multiplication forces conversion to fock representation"],
     .ok (Sum.inl (fockOf E s)))
  else if s._dm.isSome then
    ([], (State.init none none none none none
      (some (scaleT ((dmVal E s none).getD zeroT) other)) (some s.modesL) none 1).map Sum.inr)
  else if s._ket.isSome then
    ([], (State.init none none none none
      (some (scaleT ((ketVal E s none).getD zeroT) other)) none (some s.modesL) none 1).map
      Sum.inr)
  else ([], .error "no fock representation available")

/-- `State.__truediv__(other)` (`self / other`): a Gaussian state warns and
returns `self.fock` — the freshly converted, UNDIVIDED Fock tensor, not a
`State`; a Fock state divides its stored dm or ket. -/
def truedivS (E : Engines) (s : State) (other : ℚ) :
    List String × Except String (Tensor ⊕ State) :=
  if s.is_gaussian then
    (["scalar division forces conversion to fock representation"],
     .ok (Sum.inl (fockOf E s)))
  else if s._dm.isSome then
    ([], (State.init none none none none none
      (some (divT ((dmVal E s none).getD zeroT) other)) (some s.modesL) none 1).map Sum.inr)
  else if s._ket.isSome then
    ([], (State.init none none none none
      (some (divT ((ketVal E s none).getD zeroT) other)) none (some s.modesL) none 1).map
      Sum.inr)
  else ([], .error "no fock representation available")

/-- Modelled from the spec: the Gaussian-representation `State` of the older
layout consumed by `mrmustard/abstract/transformation.py` (its class body is
not among the sources); it carries covariance, means, the phase-space scale
and a mixedness mark. -/
structure GState where
  cov : QMat
  means : QVec
  hbar : ℚ
  mixed : Bool

/-- Modelled from the spec: `State.from_gaussian` of the older layout wraps
Gaussian data and the mixedness mark into a new state. -/
def GState.from_gaussian (cov : QMat) (means : QVec) (mixed : Bool) (hbar : ℚ) : GState :=
  ⟨cov, means, hbar, mixed⟩

/-- Mode count of the older-layout state (`cov.shape[-1] // 2`). -/
def GState.num_modes (s : GState) : ℕ := mCols s.cov / 2

/-- The `Transformation` entity: `X`, `d`, `Y` as pure functions of the
parameters (the base class returns `None`; subclasses override), plus the
bound acting modes. -/
structure Transformation where
  X_matrix : Option QMat
  d_vector : ℚ → Option QVec
  Y_matrix : ℚ → Option QMat
  tmodes : Option (List ℕ)

/-- `Transformation.__call__(state)`: reads `d`, `X`, `Y`, applies the
Gaussian channel on the bound modes (all of the state's modes when none are
bound) and wraps the result, marked mixed when the input was mixed or `Y`
is non-null. -/
def Transformation.call (t : Transformation) (s : GState) : Except String GState :=
  match CPTP s.cov s.means t.X_matrix (t.Y_matrix s.hbar) (t.d_vector s.hbar)
      (match t.tmodes with | none => List.range s.num_modes | some ms => ms) with
  | .ok r => .ok (GState.from_gaussian r.1 r.2 (s.mixed || (t.Y_matrix s.hbar).isSome) s.hbar)
  | .error e => .error e

/-- Well-formedness: exactly the constructor's postcondition on the fields a
successful `State.init` can produce (cov/means Gaussian data of matching
dimensions, or a ket with cached unit purity, or a density matrix; mode
labels matching the mode count). -/
def WF (s : State) : Prop :=
  (s.is_gaussian = true →
    ∃ c m, s._cov = some c ∧ s._means = some m ∧ c.length = 2 * s.num_modes ∧
      mCols c = 2 * s.num_modes ∧ m.length = 2 * s.num_modes) ∧
  (s.is_gaussian = false →
    (∃ k, s._ket = some k ∧ s._purity = some 1 ∧ k.shape.length = s.num_modes) ∨
    (s._ket = none ∧ ∃ d, s._dm = some d ∧ s._purity = none ∧
      d.shape.length = 2 * s.num_modes)) ∧
  (s.modesL).length = s.num_modes

/-- A concrete engine instance, used to instantiate the parametric theorems
at explicit concrete inputs. -/
def E0 : Engines where
  purity_g := fun _ _ => 1
  general_dyne := fun cov _ _ _ idx _ =>
    (1 / 2, idMat (mCols cov - 2 * idx.length),
     (List.range (mCols cov - 2 * idx.length)).map (fun _ => 0))
  fock_representation := fun _ _ shape _ => ⟨shape, fun _ => 1⟩
  number_means_g := fun cov _ _ => (List.range (mCols cov / 2)).map (fun _ => 0)
  number_stdev_g := fun cov _ _ => (List.range (mCols cov / 2)).map (fun _ => 0)
  dm_to_ket := fun t => ⟨t.shape.take (t.shape.length / 2), fun _ => 1⟩
  normalize_ket := fun t =>
    ⟨t.shape, fun i => if i = t.shape.map (fun _ => 0) then 1 else 0⟩

/-- Single-mode Gaussian state with default mode label, as `State.init`
produces it from a covariance and means. -/
def mkG1 (a b c d m1 m2 nrm : ℚ) : State :=
  ⟨none, none, none, some [[a, b], [c, d]], some [m1, m2], none, none, none, none, nrm,
   true, 1, none, false⟩

/-- Pure single-mode Fock fixture with amplitudes `[1, 0]` (cutoff 2). -/
def stKet2 : State :=
  ⟨some 1, none, none, none, none, none, none, some (tensor1 [1, 0]), none, 1, false, 1,
   none, false⟩

/-- Pure single-mode Fock fixture with amplitudes `[1, 0, 1]` (cutoff 3). -/
def stKet3 : State :=
  ⟨some 1, none, none, none, none, none, none, some (tensor1 [1, 0, 1]), none, 1, false, 1,
   none, false⟩

/-- Single-mode Gaussian vacuum fixture (default label). -/
def stVac : State := mkG1 1 0 0 1 0 0 1

/-- Single-mode Gaussian fixture with label 5. -/
def stG5 : State :=
  ⟨none, none, none, some [[1, 0], [0, 1]], some [0, 0], none, none, none, none, 1,
   true, 1, some [5], false⟩

/-- Single-mode Gaussian fixture with label 4. -/
def stG4 : State :=
  ⟨none, none, none, some [[1, 0], [0, 1]], some [0, 0], none, none, none, none, 1,
   true, 1, some [4], false⟩

/-- Single-mode Gaussian fixture with label 1 and identity covariance. -/
def stG1id : State :=
  ⟨none, none, none, some [[1, 0], [0, 1]], some [0, 0], none, none, none, none, 1,
   true, 1, some [1], false⟩

/-- Single-mode Gaussian fixture with label 3 and covariance `9 I`. -/
def stG3nine : State :=
  ⟨none, none, none, some [[9, 0], [0, 9]], some [0, 0], none, none, none, none, 1,
   true, 1, some [3], false⟩

/-- The representation-family dispatch of `State.__init__` (first complete
family in order cov+means, eigenvalues+symplectic, ket, dm), together with
the mode count it derives; `none` when no complete family is supplied. -/
def reprNum (cov : Option QMat) (means : Option QVec) (eigenvalues : Option QVec)
    (symplectic : Option QMat) (ket dm : Option Tensor) : Option ℕ :=
  (reprDispatch cov means eigenvalues symplectic ket dm).map (fun t => t.2.1)

/-- Fixture transformation: a swap `X` on one mode, no displacement, no noise,
no bound modes. -/
def t0 : Transformation := ⟨some [[0, 1], [1, 0]], fun _ => none, fun _ => none, none⟩

/-- Fixture older-layout Gaussian state (vacuum). -/
def s0g : GState := ⟨[[1, 0], [0, 1]], [0, 0], 2, false⟩

/-- Expected output of `t0` applied to `s0g`. -/
def g8 : GState := ⟨[[1, 0], [0, 1]], [0, 0], 2, false⟩

/-- Composite Fock fixture: `stKet2 & stKet3` as the composition produces it. -/
def st7w : State :=
  ⟨some 1, none, none, none, none, none, none,
   some (outerT (tensor1 [1, 0]) (tensor1 [1, 0, 1])), none, 1, false, 2, some [0, 1], false⟩

/-- `A & B` for the fixtures labelled 1 and 3 (labels become `[1, 4]`). -/
def c4s : State :=
  ⟨none, none, none, some [[1, 0, 0, 0], [0, 1, 0, 0], [0, 0, 9, 0], [0, 0, 0, 9]],
   some [0, 0, 0, 0], none, none, none, none, 1, true, 2, some [1, 4], false⟩

/-- `A & B` for default-labelled vacuum and thermal-like fixtures. -/
def c4w : State :=
  ⟨none, none, none, some [[1, 0, 0, 0], [0, 1, 0, 0], [0, 0, 2, 0], [0, 0, 0, 2]],
   some [0, 0, 0, 0], none, none, none, none, 1, true, 2, some [0, 1], false⟩

/-- `mkG1` is exactly the constructor's output on that data. -/
theorem mkG1_init (a b c d m1 m2 nrm : ℚ) :
    State.init (some [[a, b], [c, d]]) (some [m1, m2]) none none none none none none nrm =
      .ok (mkG1 a b c d m1 m2 nrm) := by
  simp [State.init, reprDispatch, mkG1, mCols]

theorem qabs_nonneg (q : ℚ) : 0 ≤ qabs q := by
  unfold qabs
  split <;> linarith

theorem isclose_self (a : ℚ) : isclose a a = true := by
  have hz : qabs (a - a) = 0 := by norm_num [qabs]
  simp only [isclose, hz, decide_eq_true_eq]
  have h1 : (0 : ℚ) < ATOL := by norm_num [ATOL]
  have h2 : (0 : ℚ) ≤ RTOL * qabs a := by
    have := qabs_nonneg a
    unfold RTOL
    positivity
  linarith

theorem allcloseV_self (v : QVec) : allcloseV v v = true := by
  simp only [allcloseV, beq_self_eq_true, Bool.true_and, List.all_eq_true]
  intro p hp
  have : p.1 = p.2 := by
    induction v with
    | nil => simp at hp
    | cons x t ih =>
      simp only [List.zip_cons_cons, List.mem_cons] at hp
      rcases hp with h | h
      · simp [h]
      · exact ih h
  rw [this]
  exact isclose_self p.2

theorem allcloseM_self (m : QMat) : allcloseM m m = true := by
  simp only [allcloseM, beq_self_eq_true, Bool.true_and, List.all_eq_true]
  intro p hp
  have : p.1 = p.2 := by
    induction m with
    | nil => simp at hp
    | cons x t ih =>
      simp only [List.zip_cons_cons, List.mem_cons] at hp
      rcases hp with h | h
      · simp [h]
      · exact ih h
  rw [this]
  exact allcloseV_self p.2

theorem allcloseT_self (t : Tensor) : allcloseT t t = true := by
  simp only [allcloseT, beq_self_eq_true, Bool.true_and, List.all_eq_true]
  intro i _
  exact isclose_self (t.data i)

/-- C6 (amended): `State.__init__` fails exactly when no complete
representation family is supplied, or when a modes sequence is supplied whose
length differs from the mode count derived from the first complete family in
precedence order (cov+means, eigenvalues+symplectic, ket, dm).  In
particular, supplying more than one family is NOT rejected — the claim's
third conjunct fails (see the counterexample). -/
theorem state_init_error_iff (cov : Option QMat) (means : Option QVec)
    (ev : Option QVec) (sp : Option QMat) (kt dm : Option Tensor)
    (modes : Option (List ℤ)) (cutoffs : Option (List ℕ)) (nrm : ℚ) :
    (∃ e, State.init cov means ev sp kt dm modes cutoffs nrm = .error e) ↔
      (reprNum cov means ev sp kt dm = none ∨
       ∃ n ms, reprNum cov means ev sp kt dm = some n ∧ modes = some ms ∧ ms.length ≠ n) := by
  unfold State.init reprNum reprDispatch
  rcases cov with _ | c <;> rcases means with _ | m <;> rcases ev with _ | e <;>
    rcases sp with _ | s <;> rcases kt with _ | k <;> rcases dm with _ | d <;>
    rcases modes with _ | ms <;> simp <;> split <;> simp_all

/-- C6 counterexample: supplying BOTH a complete Gaussian family (cov+means)
and a ket is accepted, not rejected; the constructor keeps the Gaussian
representation and silently stores the ket as well. -/
theorem c6_overlapping_families_accepted :
    (State.init (some [[1, 0], [0, 1]]) (some [0, 0]) none none (some (tensor1 [1, 0])) none
        none none 1).map (fun s => (s.is_gaussian, s._ket.isSome)) = .ok (true, true) := by
  simp [State.init, reprDispatch, mCols, Except.map]

/-- C9: every `State` constructed directly from a ket tensor carries the
cached purity `1.0` fixed at construction; `purity` returns it and `is_pure`
holds, for every engine (hence the purity is never recomputed from the
tensor) and for every ket, normalized or not. -/
theorem c9_ket_purity_fixed (k : Tensor) (dm : Option Tensor) (modes : Option (List ℤ))
    (cutoffs : Option (List ℕ)) (nrm : ℚ) (E : Engines) (s : State)
    (h : State.init none none none none (some k) dm modes cutoffs nrm = .ok s) :
    s._purity = some 1 ∧ purityOf E s = 1 ∧ isPure E s = true := by
  rcases modes with _ | ms <;> unfold State.init reprDispatch at h <;> dsimp only at h
  · injection h with h2
    subst h2
    refine ⟨rfl, rfl, ?_⟩
    unfold isPure purityOf
    dsimp only
    exact isclose_self 1
  · split at h
    · injection h with h2
      subst h2
      refine ⟨rfl, rfl, ?_⟩
      unfold isPure purityOf
      dsimp only
      exact isclose_self 1
    · simp at h

/-- C9 witness: the unnormalized ket `[1, 0, 1]` still yields purity 1. -/
theorem c9_witness :
    stKet3._purity = some 1 ∧ purityOf E0 stKet3 = 1 ∧ isPure E0 stKet3 = true :=
  c9_ket_purity_fixed (tensor1 [1, 0, 1]) none none none 1 E0 stKet3 rfl

/-- C10: `fock_probabilities` computes and caches its result on the first
call, and every later call returns the cached tensor and state unchanged,
regardless of the cutoffs passed to the later call. -/
theorem c10_probabilities_cached (E : Engines) (s : State) (c : List ℕ)
    (h : s._fock_probabilities = none) :
    (fock_probabilities E s c).2._fock_probabilities = some (fock_probabilities E s c).1 ∧
    ∀ c2, fock_probabilities E (fock_probabilities E s c).2 c2 =
      ((fock_probabilities E s c).1, (fock_probabilities E s c).2) := by
  obtain ⟨a1, a2, a3, a4, a5, a6, a7, a8, a9, a10, a11, a12, a13, a14⟩ := s
  dsimp only at h
  subst h
  constructor
  · unfold fock_probabilities
    dsimp only
    split <;> rfl
  · intro c2
    by_cases hm :
        isMixed E ⟨a1, none, a3, a4, a5, a6, a7, a8, a9, a10, a11, a12, a13, a14⟩ = true
    · simp [fock_probabilities, hm]
    · simp [fock_probabilities, hm]

/-- C10 witness: after a first call at cutoffs `[2]`, a second call at the
different cutoffs `[7]` returns the cached tensor and the same state. -/
theorem c10_witness :
    stKet2._fock_probabilities = none ∧
    fock_probabilities E0 (fock_probabilities E0 stKet2 [2]).2 [7] =
      ((fock_probabilities E0 stKet2 [2]).1, (fock_probabilities E0 stKet2 [2]).2) :=
  ⟨rfl, (c10_probabilities_cached E0 stKet2 [2] rfl).2 [7]⟩

/-- C2: scalar multiplication and division on a Gaussian state emit the
warning but return the raw, UNSCALED Fock tensor (not a `State`): at the
vacuum fixture with scalar 2 the returned tensor is exactly `self.fock`
(amplitude 1 at index 0), whereas the claim demands a `State` whose
amplitudes are scaled (2, respectively 1/2). -/
theorem c2_scalar_mul_bug :
    (rmulS E0 stVac 2).2 = .ok (Sum.inl (fockOf E0 stVac)) ∧
    (rmulS E0 stVac 2).1 = ["scalar multiplication forces conversion to fock representation"] ∧
    (truedivS E0 stVac 2).2 = .ok (Sum.inl (fockOf E0 stVac)) ∧
    (fockOf E0 stVac).data [0] = 1 ∧
    (scaleT (fockOf E0 stVac) 2).data [0] = 2 ∧
    (divT (fockOf E0 stVac) 2).data [0] = 1 / 2 := by
  refine ⟨rfl, rfl, rfl, ?_, ?_, ?_⟩ <;>
    norm_num [fockOf, stVac, mkG1, E0, scaleT, divT]

/-- C8: applying a `Transformation` to a Gaussian state returns the state
produced by the Gaussian channel application restricted to the bound acting
modes (all of the state's modes when none are bound), and the result is
marked mixed if and only if the input was mixed or the `Y` matrix is
non-null. -/
theorem c8_transformation_call (t : Transformation) (s g : GState)
    (h : t.call s = .ok g) :
    CPTP s.cov s.means t.X_matrix (t.Y_matrix s.hbar) (t.d_vector s.hbar)
        (match t.tmodes with | none => List.range s.num_modes | some ms => ms) =
      .ok (g.cov, g.means) ∧
    (g.mixed = true ↔ (s.mixed = true ∨ (t.Y_matrix s.hbar).isSome = true)) ∧
    g.hbar = s.hbar := by
  unfold Transformation.call at h
  rcases hc : CPTP s.cov s.means t.X_matrix (t.Y_matrix s.hbar) (t.d_vector s.hbar)
      (match t.tmodes with | none => List.range s.num_modes | some ms => ms) with e | r
  · rw [hc] at h
    simp at h
  · rw [hc] at h
    dsimp only at h
    injection h with h2
    subst h2
    refine ⟨?_, ?_, rfl⟩
    · simp [GState.from_gaussian]
    · simp [GState.from_gaussian, Bool.or_eq_true]

/-- C8 witness: the swap transformation applied to the vacuum. -/
theorem c8_witness :
    CPTP s0g.cov s0g.means t0.X_matrix (t0.Y_matrix s0g.hbar) (t0.d_vector s0g.hbar)
        (match t0.tmodes with | none => List.range s0g.num_modes | some ms => ms) =
      .ok (g8.cov, g8.means) ∧
    (g8.mixed = true ↔ (s0g.mixed = true ∨ (t0.Y_matrix s0g.hbar).isSome = true)) ∧
    g8.hbar = s0g.hbar :=
  c8_transformation_call t0 s0g g8 (by
    norm_num [Transformation.call, CPTP, t0, s0g, g8, GState.from_gaussian, GState.num_modes,
      mCols, embedX, embedY, embedD, mAdd, mMul, mTrans, mMulV, vAdd, mEntry, vEntry,
      zeroMat, List.range_succ])

/-- A successful `State.init` with explicit mode labels stores exactly them. -/
theorem init_ok_modes (cov : Option QMat) (means : Option QVec) (ev : Option QVec)
    (sp : Option QMat) (kt dm : Option Tensor) (ms : List ℤ) (cut : Option (List ℕ))
    (nrm : ℚ) (s : State)
    (h : State.init cov means ev sp kt dm (some ms) cut nrm = .ok s) :
    s._modes = some ms := by
  unfold State.init at h
  rcases hfam : reprDispatch cov means ev sp kt dm with _ | ⟨g, n, p⟩ <;> rw [hfam] at h
  · simp at h
  · dsimp only at h
    split at h
    · injection h with h2
      subst h2
      rfl
    · simp at h

theorem modesL_eq (s : State) (ms : List ℤ) (h : s._modes = some ms) : s.modesL = ms := by
  unfold State.modesL
  rw [h]

theorem foldl_max_le (l : List ℤ) (a : ℤ) :
    a ≤ l.foldl max a ∧ ∀ x ∈ l, x ≤ l.foldl max a := by
  induction l generalizing a with
  | nil => simp
  | cons y t ih =>
    simp only [List.foldl_cons, List.mem_cons]
    refine ⟨le_trans (le_max_left a y) (ih (max a y)).1, ?_⟩
    rintro x (rfl | hx)
    · exact le_trans (le_max_right a x) (ih (max a x)).1
    · exact (ih (max a y)).2 x hx

theorem le_maxModes (s : State) (x : ℤ) (hx : x ∈ s.modesL) : x ≤ maxModes s :=
  (foldl_max_le s.modesL (s.modesL.headD 0)).2 x hx

/-- C7 (amended): the composed state's labels are the left operand's labels
followed by the right operand's labels offset — by the left mode count in the
Gaussian branch and past the left maximum label in the Fock branch — and they
are pairwise distinct whenever each operand's labels are distinct, the right
operand's labels are nonnegative, and (in the Gaussian branch) the left
operand carries the default labels `0..n-1`.  Without the last proviso the
Gaussian offset can collide (see the counterexample). -/
theorem c7_and_mode_labels (E : Engines) (a b s : State)
    (hga : a.is_gaussian = true → b.is_gaussian = true → a._modes = none)
    (ha : a.modesL.Nodup) (hb : b.modesL.Nodup)
    (hbn : ∀ m ∈ b.modesL, 0 ≤ m)
    (h : andS E a b = .ok s) :
    s.modesL = a.modesL ++ (b.modesL).map (fun m =>
      if a.is_gaussian && b.is_gaussian then m + (a.num_modes : ℤ) else m + maxModes a + 1) ∧
    s.modesL.Nodup := by
  unfold andS at h
  cases hag : a.is_gaussian <;> cases hbg : b.is_gaussian <;>
    rw [hag, hbg] at h <;> simp only [Bool.not_true, Bool.not_false, Bool.true_or,
      Bool.or_true, Bool.or_self, Bool.false_eq_true, if_true, if_false] at h
  case false.false | false.true | true.false =>
    simp only [Bool.false_and, Bool.and_false, Bool.false_eq_true, if_false]
    have key : s._modes = some (a.modesL ++ (b.modesL).map (fun m => m + maxModes a + 1)) := by
      split at h
      · rcases h1 : dmVal E a none with _ | da <;> rcases h2 : dmVal E b none with _ | db <;>
          rw [h1, h2] at h <;> dsimp only at h
        · simp at h
        · simp at h
        · simp at h
        · exact init_ok_modes _ _ _ _ _ _ _ _ _ _ h
      · rcases h1 : ketVal E a none with _ | ka <;> rcases h2 : ketVal E b none with _ | kb <;>
          rw [h1, h2] at h <;> dsimp only at h
        · simp at h
        · simp at h
        · simp at h
        · exact init_ok_modes _ _ _ _ _ _ _ _ _ _ h
    have hsm := modesL_eq s _ key
    refine ⟨hsm, ?_⟩
    rw [hsm]
    have hinj : Function.Injective (fun m : ℤ => m + maxModes a + 1) := by
      intro u v huv
      simpa using huv
    refine List.Nodup.append ha (hb.map hinj) ?_
    intro x hxa hxb
    simp only [List.mem_map] at hxb
    obtain ⟨m, hm, hmx⟩ := hxb
    have h1 := le_maxModes a x hxa
    have h2 := hbn m hm
    omega
  case true.true =>
    simp only [Bool.and_self, if_true]
    have key : s._modes = some (a.modesL ++ (b.modesL).map (fun m => m + (a.num_modes : ℤ))) :=
      init_ok_modes _ _ _ _ _ _ _ _ _ _ h
    have hsm := modesL_eq s _ key
    refine ⟨hsm, ?_⟩
    rw [hsm]
    have hdef : a.modesL = (List.range a.num_modes).map Int.ofNat := by
      unfold State.modesL
      rw [hga hag hbg]
    have hinj : Function.Injective (fun m : ℤ => m + (a.num_modes : ℤ)) := by
      intro u v huv
      simpa using huv
    have hinj2 : Function.Injective Int.ofNat := by
      intro u v huv
      simpa using huv
    refine List.Nodup.append ?_ (hb.map hinj) ?_
    · rw [hdef]
      exact (List.nodup_range _).map hinj2
    · intro x hxa hxb
      rw [hdef] at hxa
      simp only [List.mem_map, List.mem_range] at hxa hxb
      obtain ⟨i, hi, hix⟩ := hxa
      obtain ⟨m, hm, hmx⟩ := hxb
      have h2 := hbn m hm
      have hcast : (i : ℤ) < (a.num_modes : ℤ) := by exact_mod_cast hi
      have hix2 : (i : ℤ) = x := hix
      omega

/-- C7 counterexample: composing two Gaussian single-mode states labelled 5
and 4 yields the duplicated labels `[5, 5]` — the Gaussian branch offsets by
the left mode count, not past the left maximum. -/
theorem c7_gaussian_offset_collides :
    (andS E0 stG5 stG4).map State.modesL = .ok [5, 5] ∧ ¬ ([(5 : ℤ), 5].Nodup) := by
  constructor
  · norm_num [andS, E0, stG5, stG4, State.modesL, State.init, reprDispatch, joinCovs, joinMeans,
      State.covG, State.meansG, mCols, mEntry, List.range_succ, Except.map]
  · decide

theorem c7_and_ok : andS E0 stKet2 stKet3 = .ok st7w := by
  norm_num [andS, E0, stKet2, stKet3, st7w, isMixed, isPure, purityOf, isclose, qabs, ATOL,
    RTOL, ketVal, mergeCutoffs, cutoffsOf, fockRaw, tensor1, State.init, reprDispatch,
    maxModes, State.modesL, outerT, mCols, List.range_succ]

/-- C7 witness: the Fock branch at the `stKet2 & stKet3` fixture. -/
theorem c7_witness :
    st7w.modesL = stKet2.modesL ++ (stKet3.modesL).map (fun m =>
      if stKet2.is_gaussian && stKet3.is_gaussian then m + (stKet2.num_modes : ℤ)
      else m + maxModes stKet2 + 1) ∧
    st7w.modesL.Nodup :=
  c7_and_mode_labels E0 stKet2 stKet3 st7w
    (by simp [stKet2])
    (by simp [State.modesL, stKet2, List.range_succ])
    (by simp [State.modesL, stKet3, List.range_succ])
    (by simp [State.modesL, stKet3, List.range_succ])
    c7_and_ok

/-- C3 (amended): state equality is reflexive, for every engine and every
state carrying a cov/means Gaussian or Fock representation (the
eigenvalue+symplectic construction lacks purity support in the source and
raises on comparison); symmetry fails in general for Fock states of unequal
cutoffs (see the counterexample). -/
theorem c3_eq_reflexive (E : Engines) (s : State) (_h : WF s) : eqS E s s = true := by
  unfold eqS
  rw [if_neg (by simp)]
  rw [isclose_self]
  simp only [Bool.not_true, Bool.false_eq_true, if_false]
  cases hg : s.is_gaussian
  · simp only [Bool.false_and, Bool.false_eq_true, if_false]
    rcases hk : ketVal E s (some ((cutoffsOf E s).map some)) with _ | k
    · exact allcloseT_self _
    · exact allcloseT_self _
  · simp only [Bool.and_self, if_true]
    rw [if_neg (by rw [allcloseV_self]; simp), if_neg (by rw [allcloseM_self]; simp)]

/-- C3 counterexample: the kets `[1,0,1]` (cutoff 3) and `[1,0]` (cutoff 2)
compare equal one way (the longer ket is truncated) but unequal the other
way (the shorter ket is zero-padded against amplitude 1), so `A == B` does
not imply `B == A`. -/
theorem c3_symmetry_fails :
    eqS E0 stKet3 stKet2 = true ∧ eqS E0 stKet2 stKet3 = false := by
  constructor <;>
    norm_num [eqS, E0, stKet3, stKet2, purityOf, isclose, qabs, ATOL, RTOL, ketVal, isMixed,
      isPure, cutoffsOf, fockRaw, tensor1, mergeCutoffs, sliceT, padT, allcloseT, indicesOf,
      List.range_succ, List.enum]

/-- C3 witness: reflexivity at the Fock fixture. -/
theorem c3_witness : eqS E0 stKet2 stKet2 = true :=
  c3_eq_reflexive E0 stKet2 (by
    refine ⟨?_, ?_, ?_⟩
    · intro hg
      simp [stKet2] at hg
    · intro _
      left
      exact ⟨tensor1 [1, 0], rfl, rfl, by simp [tensor1, stKet2]⟩
    · simp [State.modesL, stKet2, List.range_succ])

theorem joinCovs_two (a b c d e f g h2 : ℚ) :
    joinCovs [[a, b], [c, d]] [[e, f], [g, h2]] =
      [[a, b, 0, 0], [c, d, 0, 0], [0, 0, e, f], [0, 0, g, h2]] := by
  norm_num [joinCovs, mEntry, List.range_succ]

/-- A successful cov/means `State.init` yields exactly the constructor's
record. -/
theorem init_ok_gaussian (cv : QMat) (mn : QVec) (ms : List ℤ) (cut : Option (List ℕ))
    (nrm : ℚ) (s : State)
    (h : State.init (some cv) (some mn) none none none none (some ms) cut nrm = .ok s) :
    s = ⟨none, none, cut, some cv, some mn, none, none, none, none, nrm, true,
      mCols cv / 2, some ms, false⟩ := by
  unfold State.init reprDispatch at h
  dsimp only at h
  split at h
  · injection h with h2
    exact h2.symm
  · simp at h

/-- Two uncached Gaussian states with the same mode count, covariance and
means are equal under `__eq__`, for every engine. -/
theorem eqS_gaussian_same (E : Engines) (x y : State)
    (hx : x.is_gaussian = true) (hy : y.is_gaussian = true)
    (hnum : x.num_modes = y.num_modes) (hcv : x._cov = y._cov) (hmn : x._means = y._means)
    (hpx : x._purity = none) (hpy : y._purity = none) :
    eqS E x y = true := by
  have hp : purityOf E x = purityOf E y := by
    unfold purityOf
    rw [hpx, hpy]
    dsimp only
    rw [hx, hy]
    unfold State.covG
    rw [hcv]
    simp
  unfold eqS
  rw [hnum, if_neg (by simp), hp, isclose_self]
  simp only [Bool.not_true, Bool.false_eq_true, if_false]
  rw [hx, hy]
  simp only [Bool.and_self, if_true]
  unfold State.covG State.meansG
  rw [hcv, hmn]
  rw [allcloseV_self, allcloseM_self]
  simp

/-- C4 (amended): for every two single-mode Gaussian states with DEFAULT mode
labels, composing and then selecting mode 0 recovers the first state within
tolerance, and selecting mode 1 recovers the second.  With non-default
labels `get_modes` mis-selects, because it uses the labels directly as block
positions (see the counterexample). -/
theorem c4_compose_select_inverse (E : Engines) (a b c d a2 b2 c2 d2 m1 m2 n1 n2 q r : ℚ)
    (s : State)
    (h : andS E (mkG1 a b c d m1 m2 q) (mkG1 a2 b2 c2 d2 n1 n2 r) = .ok s) :
    (∃ sa, get_modesS E s [0] = .ok sa ∧ eqS E sa (mkG1 a b c d m1 m2 q) = true) ∧
    (∃ sb, get_modesS E s [1] = .ok sb ∧ eqS E sb (mkG1 a2 b2 c2 d2 n1 n2 r) = true) := by
  unfold andS at h
  simp only [mkG1, Bool.not_true, Bool.or_self, Bool.false_eq_true, if_false] at h
  rw [show State.covG ⟨none, none, none, some [[a, b], [c, d]], some [m1, m2], none, none,
      none, none, q, true, 1, none, false⟩ = [[a, b], [c, d]] from rfl,
    show State.covG ⟨none, none, none, some [[a2, b2], [c2, d2]], some [n1, n2], none, none,
      none, none, r, true, 1, none, false⟩ = [[a2, b2], [c2, d2]] from rfl,
    show State.meansG ⟨none, none, none, some [[a, b], [c, d]], some [m1, m2], none, none,
      none, none, q, true, 1, none, false⟩ = [m1, m2] from rfl,
    show State.meansG ⟨none, none, none, some [[a2, b2], [c2, d2]], some [n1, n2], none, none,
      none, none, r, true, 1, none, false⟩ = [n1, n2] from rfl,
    joinCovs_two] at h
  have hs := init_ok_gaussian _ _ _ _ _ _ h
  subst hs
  constructor
  · refine ⟨⟨none, none, none, some [[a, b], [c, d]], some [m1, m2], none, none, none, none,
      1, true, mCols [[a, b], [c, d]] / 2, some [0], false⟩, ?_, ?_⟩
    · unfold get_modesS
      dsimp only
      norm_num [partitionCov, partitionMeans, quadIdx, subMat, subVec, mEntry, vEntry,
        joinMeans, State.covG, State.meansG, State.init, reprDispatch, mCols]
    · exact eqS_gaussian_same E _ _ rfl rfl (by norm_num [mCols, mkG1]) rfl rfl rfl rfl
  · refine ⟨⟨none, none, none, some [[a2, b2], [c2, d2]], some [n1, n2], none, none, none, none,
      1, true, mCols [[a2, b2], [c2, d2]] / 2, some [1], false⟩, ?_, ?_⟩
    · unfold get_modesS
      dsimp only
      norm_num [partitionCov, partitionMeans, quadIdx, subMat, subVec, mEntry, vEntry,
        joinMeans, State.covG, State.meansG, State.init, reprDispatch, mCols]
    · exact eqS_gaussian_same E _ _ rfl rfl (by norm_num [mCols, mkG1]) rfl rfl rfl rfl

/-- C4 counterexample: with A labelled 1 (identity covariance) and B
labelled 3 (covariance `9 I`), `(A & B).get_modes([1])` returns B's block
instead of A — `get_modes` treats the label 1 as a raw block position — so
the selected state does not equal A. -/
theorem c4_label_misindex :
    andS E0 stG1id stG3nine = .ok c4s ∧
    (get_modesS E0 c4s [1]).map (fun t => eqS E0 t stG1id) = .ok false := by
  constructor
  · norm_num [andS, E0, stG1id, stG3nine, c4s, State.covG, State.meansG, State.modesL,
      joinCovs, joinMeans, State.init, reprDispatch, mCols, mEntry, List.range_succ]
  · norm_num [get_modesS, c4s, partitionCov, partitionMeans, quadIdx, subMat, subVec,
      mEntry, vEntry, State.covG, State.meansG, State.init, reprDispatch, mCols, Except.map,
      eqS, stG1id, purityOf, E0, isclose, qabs, ATOL, RTOL, allcloseV, allcloseM,
      List.range_succ]

theorem c4_and_ok : andS E0 (mkG1 1 0 0 1 0 0 1) (mkG1 2 0 0 2 0 0 1) = .ok c4w := by
  norm_num [andS, E0, mkG1, c4w, State.covG, State.meansG, State.modesL, joinCovs,
    joinMeans, State.init, reprDispatch, mCols, mEntry, List.range_succ]

/-- C4 witness: vacuum and a squeezed-like diagonal state, default labels. -/
theorem c4_witness :
    (∃ sa, get_modesS E0 c4w [0] = .ok sa ∧ eqS E0 sa (mkG1 1 0 0 1 0 0 1) = true) ∧
    (∃ sb, get_modesS E0 c4w [1] = .ok sb ∧ eqS E0 sb (mkG1 2 0 0 2 0 0 1) = true) :=
  c4_compose_select_inverse E0 1 0 0 1 2 0 0 2 0 0 0 0 1 1 c4w c4_and_ok

theorem isPure_of_cached (E : Engines) (s : State) (h : s._purity = some 1) :
    isPure E s = true := by
  unfold isPure purityOf
  rw [h]
  exact isclose_self 1

theorem ketVal_isSome (E : Engines) (s : State) (c : Option (List (Option ℕ)))
    (hw : WF s) (hp : isPure E s = true) :
    ∃ t, ketVal E s c = some t := by
  unfold ketVal
  rw [show isMixed E s = false by unfold isMixed; rw [hp]; rfl]
  simp only [Bool.false_eq_true, if_false]
  cases hg : s.is_gaussian
  · simp only [Bool.false_eq_true, if_false]
    rcases hw.2.1 hg with ⟨k, hk, hpk, hrk⟩ | ⟨hkn, d, hd, hpd, hrd⟩
    · rw [hk]
      dsimp only
      by_cases hcut : mergeCutoffs E s c ≠ k.shape.take s.num_modes
      · rw [if_pos hcut]
        exact ⟨_, rfl⟩
      · rw [if_neg hcut]
        exact ⟨_, rfl⟩
    · rw [hkn]
      dsimp only
      rw [hp]
      exact ⟨_, rfl⟩
  · simp only [if_true]
    exact ⟨_, rfl⟩

theorem dmVal_isSome (E : Engines) (s : State) (c : Option (List (Option ℕ)))
    (hw : WF s) :
    ∃ t, dmVal E s c = some t := by
  unfold dmVal
  cases hp : isPure E s
  · simp only [Bool.false_eq_true, if_false]
    cases hg : s.is_gaussian
    · simp only [Bool.false_eq_true, if_false]
      rcases hw.2.1 hg with ⟨k, hk, hpk, hrk⟩ | ⟨hkn, d, hd, hpd, hrd⟩
      · exact absurd (isPure_of_cached E s hpk) (by rw [hp]; simp)
      · by_cases hcut :
            mergeCutoffs E s c ≠ (s._dm.getD zeroT).shape.take s.num_modes
        · rw [if_pos hcut]
          exact ⟨_, rfl⟩
        · rw [if_neg hcut, hd]
          exact ⟨_, rfl⟩
    · simp only [if_true]
      exact ⟨_, rfl⟩
  · simp only [if_true]
    obtain ⟨t, ht⟩ := ketVal_isSome E s (some ((mergeCutoffs E s c).map some)) hw hp
    rw [ht]
    exact ⟨_, rfl⟩

theorem remaining_nil (a b : State) (hmod : ∀ m ∈ a.modesL, m ∈ b.modesL) :
    (a.modesL).filter (fun m => !(decide (m ∈ b.modesL))) = [] := by
  rw [List.filter_eq_nil_iff]
  intro m hm
  simp [hmod m hm]

/-- C1: a projection whose modes cover every mode of the measured state
returns a bare scalar, not a `State`: the dyne probability in the Gaussian
branch, and the squared magnitude of the full contraction when both states
are pure Fock states. -/
theorem c1_full_overlap_scalar (E : Engines) (b a : State) (hwa : WF a) (hwb : WF b)
    (hmod : ∀ m, m ∈ a.modesL ↔ m ∈ b.modesL) :
    (∃ p, primal E b a = .ok (Sum.inl p)) ∧
    ((b.is_gaussian && a.is_gaussian) = true →
      primal E b a = .ok (Sum.inl
        (E.general_dyne a.covG a.meansG b.covG b.meansG (a.indicesI b.modesL) HBAR).1)) ∧
    ((b.is_gaussian && a.is_gaussian) = false → isPure E a = true → isPure E b = true →
      ∃ ta tb,
        ketVal E a (some ((a.modesL).map (fun m =>
          if m ∈ b.modesL then some ((cutoffsOf E a).getD ((a.modesL).indexOf m) 0)
          else none))) = some ta ∧
        ketVal E b (some ((b.modesL).map (fun m =>
          some ((cutoffsOf E a).getD ((a.modesL).indexOf m) 0)))) = some tb ∧
        primal E b a = .ok (Sum.inl
          (qabs ((contract_states E ta tb false false (a.indicesI b.modesL)
            b._normalize).data []) ^ 2))) := by
  have hrem : (a.modesL).filter (fun m => !(decide (m ∈ b.modesL))) = [] :=
    remaining_nil a b (fun m hm => (hmod m).1 hm)
  cases hbool : (b.is_gaussian && a.is_gaussian)
  · -- Fock path
    have hA : ∃ ta, (if isPure E a = true then
        ketVal E a (some ((a.modesL).map (fun m =>
          if m ∈ b.modesL then some ((cutoffsOf E a).getD ((a.modesL).indexOf m) 0)
          else none)))
      else dmVal E a (some ((a.modesL).map (fun m =>
          if m ∈ b.modesL then some ((cutoffsOf E a).getD ((a.modesL).indexOf m) 0)
          else none)))) = some ta := by
      cases hpa : isPure E a
      · simp only [Bool.false_eq_true, if_false]
        exact dmVal_isSome E a _ hwa
      · simp only [if_true]
        exact ketVal_isSome E a _ hwa hpa
    have hB : ∃ tb, (if isPure E b = true then
        ketVal E b (some ((b.modesL).map (fun m =>
          some ((cutoffsOf E a).getD ((a.modesL).indexOf m) 0))))
      else dmVal E b (some ((b.modesL).map (fun m =>
          some ((cutoffsOf E a).getD ((a.modesL).indexOf m) 0))))) = some tb := by
      cases hpb : isPure E b
      · simp only [Bool.false_eq_true, if_false]
        exact dmVal_isSome E b _ hwb
      · simp only [if_true]
        exact ketVal_isSome E b _ hwb hpb
    obtain ⟨ta, hta⟩ := hA
    obtain ⟨tb, htb⟩ := hB
    have hpv : primal E b a = .ok (Sum.inl
        (if (isPure E a && isPure E b) = true then
          qabs ((contract_states E ta tb (isMixed E a) (isMixed E b) (a.indicesI b.modesL)
            b._normalize).data []) ^ 2
        else
          qabs ((contract_states E ta tb (isMixed E a) (isMixed E b) (a.indicesI b.modesL)
            b._normalize).data []))) := by
      unfold primal
      rw [hbool]
      simp only [Bool.false_eq_true, if_false]
      rw [hta, htb]
      dsimp only
      rw [hrem]
      simp
    refine ⟨⟨_, hpv⟩, ?_, ?_⟩
    · intro hcon
      simp at hcon
    · intro _ hpa hpb
      rw [hpa] at hta
      rw [hpb] at htb
      simp only [if_true] at hta htb
      refine ⟨ta, tb, hta, htb, ?_⟩
      rw [hpv]
      have hma : isMixed E a = false := by unfold isMixed; rw [hpa]; rfl
      have hmb : isMixed E b = false := by unfold isMixed; rw [hpb]; rfl
      rw [hma, hmb, hpa, hpb]
      simp
  · -- Gaussian path
    have hpv : primal E b a = .ok (Sum.inl
        (E.general_dyne a.covG a.meansG b.covG b.meansG (a.indicesI b.modesL) HBAR).1) := by
      unfold primal
      rw [hbool]
      simp only [if_true]
      rw [hrem]
      simp
    exact ⟨⟨_, hpv⟩, fun _ => hpv, fun hcon => absurd hcon (by simp)⟩

theorem WF_stVac : WF stVac := by
  refine ⟨fun _ => ⟨[[1, 0], [0, 1]], [0, 0], rfl, rfl, rfl, rfl, rfl⟩, ?_, rfl⟩
  intro h
  simp [stVac, mkG1] at h

/-- C1 witness: projecting the vacuum onto itself yields a scalar. -/
theorem c1_witness : ∃ p, primal E0 stVac stVac = .ok (Sum.inl p) :=
  (c1_full_overlap_scalar E0 stVac stVac WF_stVac WF_stVac (fun _ => Iff.rfl)).1

